import Mathlib

/-!
Shallow embedding of the core of `utils/utils.go` from the mongosync
repository: the namespace mapper (`CustFilter`), the replay-engine
namespace filter (`CustContainsNs`), the oplog dispatcher
(`CustGetOplogNs` and the per-entry switch of `CustReplayOplog`),
the batched writer with degraded fallback (`CustInsertMany`),
the index cloner (`CustSyncIndex`) and the oplog staging writer
(`CustSyncOplog`).

Strings are modelled as `List Char` (Go strings are byte slices; all the
relevant code only concatenates, splits on `"."`, and compares).  The
destination database is modelled as an oracle: each destination call's
error outcome is an explicit function parameter, and the model records
the operations the code would issue together with the options the code
sets on them.  Go panics that the source does not recover (type
assertions and out-of-range slice indexing) are modelled as an explicit
crash outcome; the one function with a `defer recover` (`CustGetOplogNs`)
returns Go zero values `("", "")` instead, exactly as the recovered Go
function does.
-/

namespace Mongosync

/-- Go `strings.SplitN(s, ".", 2)` viewed through its two possible shapes:
`some (a, b)` when `s = a ++ "." ++ b` with the split at the first dot
(so `SplitN` returned `[a, b]`), and `none` when `s` contains no dot
(so `SplitN` returned `[s]` and any index `[1]` access panics). -/
def splitFirstDot : List Char → Option (List Char × List Char)
  | [] => none
  | c :: rest =>
    if c = '.' then some ([], rest)
    else
      match splitFirstDot rest with
      | some (a, b) => some (c :: a, b)
      | none => none

/-- Go `strings.TrimSuffix(s, suf)`: drop `suf` from the end of `s` when it
is a suffix, otherwise return `s` unchanged. -/
def trimSuffix (s suf : List Char) : List Char :=
  if suf.isSuffixOf s then s.take (s.length - suf.length) else s

/-- Go `strings.Contains(s, pat)`: `pat` occurs as a contiguous substring
of `s`. -/
def strContains (s pat : List Char) : Bool :=
  match s with
  | [] => pat.isPrefixOf ([] : List Char)
  | _ :: rest => pat.isPrefixOf s || strContains rest pat

/-- A Go `map[string]string` (the `nsnsMap` argument), as an association
list with at most one binding per key in any well-formed use. -/
abbrev NsTable := List (List Char × List Char)

/-- Go map indexing `m[k]` together with the `, exist` form: `some v` when
the key is present. -/
def lookupNs (m : NsTable) (k : List Char) : Option (List Char) :=
  (List.find? (fun p => p.1 == k) m).map (fun p => p.2)

/-- The `NsMap` struct of `utils.go`. -/
structure NsMap where
  SrcDb : List Char
  SrcColl : List Char
  DstDb : List Char
  DstColl : List Char
deriving DecidableEq

/-- `CustFilter` from `utils.go`: split `ns` at its first dot for the
source side; when `nsnsMap` contains `ns`, split the mapped value at its
first dot for the destination side, otherwise reuse the source pair.
Every split is Go `strings.SplitN(·, ".", 2)` followed by indexing `[0]`
and `[1]`; when the string being split contains no dot the `[1]` access
panics and the process crashes (`CustFilter` has no `recover`), modelled
as `none`. -/
def CustFilter (ns : List Char) (nsnsMap : NsTable) : Option NsMap :=
  match lookupNs nsnsMap ns with
  | some v =>
    match splitFirstDot ns, splitFirstDot v with
    | some (sdb, sc), some (ddb, dc) => some ⟨sdb, sc, ddb, dc⟩
    | _, _ => none
  | none =>
    match splitFirstDot ns with
    | some (sdb, sc) => some ⟨sdb, sc, sdb, sc⟩
    | none => none

/-- The `CustContainsNs` closure of `CustReplayOplog`: an entry's
effective NS is admitted when it equals a filter entry, or when the
filter entry has `strings.TrimSuffix(oplogns, "$cmd")` as a string
prefix. -/
def CustContainsNs (oplogns : List Char) (nsSlice : List (List Char)) : Bool :=
  nsSlice.any (fun value =>
    oplogns == value || List.isPrefixOf (trimSuffix oplogns ("$cmd".toList)) value)

/-- Modelled from the spec: the admission predicate exactly as claim C1
states it — the effective NS equals some filter entry, or the effective
NS has the form `db.$cmd` and some filter entry has database prefix
`db` (i.e. starts with `db.`). -/
def claimAdmitsNs (ns : List Char) (nsSlice : List (List Char)) : Bool :=
  nsSlice.contains ns ||
    (List.isSuffixOf (".$cmd".toList) ns &&
      nsSlice.any (fun v => List.isPrefixOf (ns.take (ns.length - 4)) v))

/-- `primitive.Timestamp`: the pair (seconds `T`, ordinal `I`), compared
lexicographically by the server's `$gte`/`$lte` and by `.Equal`. -/
structure TS where
  t : Nat
  i : Nat
deriving DecidableEq

/-- Strict lexicographic order on timestamps. -/
def TS.blt (a b : TS) : Bool :=
  decide (a.t < b.t ∨ (a.t = b.t ∧ a.i < b.i))

/-- Lexicographic `≤` on timestamps (the `$gte`/`$lte` filters). -/
def TS.ble (a b : TS) : Bool :=
  decide (a.t < b.t ∨ (a.t = b.t ∧ a.i ≤ b.i))

/-- A decoded BSON value, as far as the engine inspects values: strings,
booleans, 32-bit integers, timestamps, `nil`/null, and everything else
carried opaquely (subdocuments, ObjectIds, arrays ...). -/
inductive BVal where
  | str : List Char → BVal
  | boolean : Bool → BVal
  | int32 : Int → BVal
  | tstamp : TS → BVal
  | null : BVal
  | blob : Nat → BVal
deriving DecidableEq

/-- A decoded BSON document (`bson.D` / `bson.M`): key–value pairs. -/
abbrev Doc := List (List Char × BVal)

/-- Go `bson.D.Map()[k]`: build a map by assigning each element in order
(so the last occurrence of a duplicated key wins) and look `k` up;
`none` when the key is absent (Go yields a `nil` interface). -/
def docGet (d : Doc) (k : List Char) : Option BVal :=
  (List.find? (fun p => p.1 == k) d.reverse).map (fun p => p.2)

/-- The `, exists` form of Go map indexing on `bson.D.Map()`. -/
def hasKey (d : Doc) (k : List Char) : Bool :=
  (docGet d k).isSome

/-- The `OPLOG` struct of `utils.go` (the fields the engine reads;
`t`, `h`, `v` are bookkeeping the engine never inspects). -/
structure Oplog where
  ts : TS
  op : List Char
  ns : List Char
  o2 : Doc
  o : Doc
deriving DecidableEq

/-- `CustGetOplogNs` from `utils.go`: for an entry with nonempty `ns`,
when `op = "i"` and the payload `o` has no `_id`, the namespace is
`o["ns"]` split at its first dot (an index build); otherwise the entry's
own `ns` split at its first dot.  The function body runs under
`defer recover()`, so a panic (the `.(string)` type assertion on a
missing/non-string `o["ns"]`, or the `NS[1]` access when the string has
no dot) makes it return the Go zero values `("", "")` — as does an empty
`ns`. -/
def CustGetOplogNs (oplog : Oplog) : List Char × List Char :=
  if oplog.ns ≠ [] then
    if oplog.op == "i".toList && !(hasKey oplog.o ("_id".toList)) then
      match docGet oplog.o ("ns".toList) with
      | some (BVal.str s) =>
        match splitFirstDot s with
        | some p => p
        | none => ([], [])
      | _ => ([], [])
    else
      match splitFirstDot oplog.ns with
      | some p => p
      | none => ([], [])
  else ([], [])

/-- A destination operation issued by the replay dispatch, with the
options the code sets on it. -/
inductive Write where
  | replaceOne (db coll : List Char) (filt : Doc) (rep : Doc) (upsert : Bool)
  | createIndex (db coll : List Char) (nam : List Char) (key : Option BVal) (background : Bool)
  | updateOne (db coll : List Char) (selector : Doc) (upd : Doc) (upsert : Bool) (bypass : Bool)
  | deleteOne (db coll : List Char) (selector : Doc)
  | runCommand (db : List Char) (cmd : Doc)
deriving DecidableEq

/-- Outcome of processing one decoded oplog entry: the destination
writes it issued, and whether an unrecovered panic crashed the process
(every panic point in the loop body precedes the write of its branch,
so a crashing entry has issued the writes recorded before the crash). -/
inductive StepRes where
  | ok : List Write → StepRes
  | crash : List Write → StepRes
deriving DecidableEq

/-- The destination writes an entry issued, crash or not. -/
def StepRes.writes : StepRes → List Write
  | .ok ws => ws
  | .crash ws => ws

/-- The body of `CustReplayOplog`'s cursor loop for one decoded entry:
compute the effective NS via `CustGetOplogNs`, admit it through
`CustContainsNs`, remap it through `CustFilter` (whose `SplitN` panic is
not recovered here: `crash`), then dispatch on `op`.  Per-op destination
errors are logged and do not change control flow, so the model records
the issued operation only.  The `"i"` index-build arm type-asserts
`o["name"].(string)` before calling `CreateOne`; a failed assertion
panics (crash) before any write.  `effectiveNs` is the
`fmt.Sprintf("%s.%s", dstDbName, dstCollName)` string the loop feeds to
`CustContainsNs` and `CustFilter`. -/
def effectiveNs (e : Oplog) : List Char :=
  (CustGetOplogNs e).1 ++ '.' :: (CustGetOplogNs e).2

/-- The per-entry dispatch of `CustReplayOplog` (see the doc comment
above `effectiveNs` for the framing). -/
def applyOplogEntry (e : Oplog) (nsSlice : List (List Char)) (m : NsTable) : StepRes :=
  if CustContainsNs (effectiveNs e) nsSlice then
    match CustFilter (effectiveNs e) m with
    | none => StepRes.crash []
    | some nsStruct =>
      if e.op == "i".toList then
        match docGet e.o ("_id".toList) with
        | some v =>
          StepRes.ok [Write.replaceOne nsStruct.DstDb nsStruct.DstColl
            [("_id".toList, v)] e.o true]
        | none =>
          match docGet e.o ("name".toList) with
          | some (BVal.str nm) =>
            StepRes.ok [Write.createIndex nsStruct.DstDb nsStruct.DstColl nm
              (docGet e.o ("key".toList)) true]
          | _ => StepRes.crash []
      else if e.op == "u".toList then
        if hasKey e.o ("$set".toList) then
          StepRes.ok [Write.updateOne nsStruct.DstDb nsStruct.DstColl e.o2 e.o true false]
        else
          StepRes.ok [Write.replaceOne nsStruct.DstDb nsStruct.DstColl e.o2 e.o true]
      else if e.op == "d".toList then
        StepRes.ok [Write.deleteOne nsStruct.DstDb nsStruct.DstColl e.o]
      else if e.op == "c".toList then
        StepRes.ok [Write.runCommand nsStruct.DstDb e.o]
      else
        StepRes.ok []
  else StepRes.ok []

/-- The cursor loop of `CustReplayOplog` over the entries the cursor
delivers, in order: the accumulated destination writes and whether an
unrecovered panic stopped the process. -/
def replayLoop (nsSlice : List (List Char)) (m : NsTable) : List Oplog → List Write × Bool
  | [] => ([], false)
  | e :: rest =>
    match applyOplogEntry e nsSlice m with
    | .crash ws => (ws, true)
    | .ok ws =>
      let r := replayLoop nsSlice m rest
      (ws ++ r.1, r.2)

/-- Outcome of a `CustReplayOplog` run. -/
inductive ReplayRes where
  | fatalNs : ReplayRes
  | fatalProbe : ReplayRes
  | fatalWatermark : ReplayRes
  | done : List Write → ReplayRes
  | crashed : List Write → ReplayRes
deriving DecidableEq

/-- The destination writes a replay run issued. -/
def ReplayRes.writes : ReplayRes → List Write
  | .done ws => ws
  | .crashed ws => ws
  | _ => []

/-- `CustReplayOplog` from `utils.go`, over a source oplog collection
modelled as its list of documents in natural order.  Steps, in the
code's order: default the source namespace to `local.oplog.rs` and
`log.Fatalln` when it does not split as `db.coll`; validate the
watermark with `FindOne(ts >= startTS)` (`log.Fatalln` when the probe
errors — e.g. no document matches — and `log.Fatalf` when the first
matching document's `ts` differs from `startTS`); then open the cursor
(`ts >= startTS`, plus `ts <= endTS` when `endTS` is nonzero) and run
the dispatch loop.  The cursor type (tailing-await on `local.oplog.rs`,
non-tailing otherwise) and the per-entry heartbeat read of the
primary's latest timestamp touch no destination state and are not
modelled. -/
def CustReplayOplog (log : List Oplog) (startTS endTS : TS)
    (srcOplogNamespace : List Char) (nsSlice : List (List Char)) (m : NsTable) : ReplayRes :=
  let ns0 := if srcOplogNamespace = [] then "local.oplog.rs".toList else srcOplogNamespace
  match splitFirstDot ns0 with
  | none => ReplayRes.fatalNs
  | some _ =>
    match List.find? (fun e => TS.ble startTS e.ts) log with
    | none => ReplayRes.fatalProbe
    | some first =>
      if first.ts = startTS then
        let entries :=
          if endTS = ⟨0, 0⟩ then
            log.filter (fun e => TS.ble startTS e.ts)
          else
            log.filter (fun e => TS.ble startTS e.ts && TS.ble e.ts endTS)
        let r := replayLoop nsSlice m entries
        if r.2 then ReplayRes.crashed r.1 else ReplayRes.done r.1
      else ReplayRes.fatalWatermark

/-- A destination operation issued by `CustInsertMany`, with the options
the code sets (`ordered`, `bypass` = `SetBypassDocumentValidation`,
`upsert`). -/
inductive WriterOp where
  | insertMany (docs : List Doc) (ordered : Bool) (bypass : Bool)
  | replaceOne (filt : Doc) (doc : Doc) (bypass : Bool) (upsert : Bool)
  | insertOne (doc : Doc) (bypass : Bool)
deriving DecidableEq

/-- The duplicate-key signal `CustInsertMany` classifies by substring. -/
def dupKeyPat : List Char := "E11000 duplicate key error".toList

/-- The `insertManyErrHandler` closure of `CustInsertMany` for one
document of a failed batch: the (success, failure) counter increments
and the single destination operation it issues.  `replaceRes`/`insertRes`
give the destination's error outcome (`some errString` or `none`) for
the operation used by the active policy.
- `updateOverwrite = true` (ReplaceOnDuplicate): `ReplaceOne` on
  `{_id: doc["_id"]}` (Go yields `nil` for a missing key) with
  validation on and upsert true; an error counts a failure, otherwise a
  success.
- `updateOverwrite = false` (SkipOnDuplicate): `InsertOne` with
  validation bypassed; an error whose string contains
  `E11000 duplicate key error` counts a success, any other error a
  failure, no error a success. -/
def fallbackDoc (updateOverwrite : Bool) (replaceRes insertRes : Doc → Option (List Char))
    (d : Doc) : Nat × Nat × WriterOp :=
  if updateOverwrite then
    let w := WriterOp.replaceOne [("_id".toList, (docGet d ("_id".toList)).getD BVal.null)] d false true
    match replaceRes d with
    | some _ => (0, 1, w)
    | none => (1, 0, w)
  else
    let w := WriterOp.insertOne d true
    match insertRes d with
    | some er => if strContains er dupKeyPat then (1, 0, w) else (0, 1, w)
    | none => (1, 0, w)

/-- The fallback worker pool of `CustInsertMany` over a failed batch:
every document is taken from the channel exactly once and handled by
`insertManyErrHandler`; the counters are accumulated under one mutex, so
their totals are the order-independent sums modelled here by a
sequential pass. -/
def fallbackRun (updateOverwrite : Bool) (replaceRes insertRes : Doc → Option (List Char)) :
    List Doc → Nat × Nat × List WriterOp
  | [] => (0, 0, [])
  | d :: rest =>
    let s := fallbackDoc updateOverwrite replaceRes insertRes d
    let r := fallbackRun updateOverwrite replaceRes insertRes rest
    (s.1 + r.1, s.2.1 + r.2.1, s.2.2 :: r.2.2)

/-- `CustInsertMany` from `utils.go`: an ordered `InsertMany` with
document validation on (`SetOrdered(true)`,
`SetBypassDocumentValidation(false)`); when it succeeds the counters are
`(len docs, 0)`, and on any bulk error every document goes through the
fallback pool.  `bulkRes` is the destination's outcome for the bulk
insert.  Returns (sucessNum, failNum, the issued operations). -/
def CustInsertMany (docs : List Doc) (updateOverwrite : Bool)
    (bulkRes : Option (List Char)) (replaceRes insertRes : Doc → Option (List Char)) :
    Nat × Nat × List WriterOp :=
  let bulkOp := WriterOp.insertMany docs true false
  match bulkRes with
  | none => (docs.length, 0, [bulkOp])
  | some _ =>
    let r := fallbackRun updateOverwrite replaceRes insertRes docs
    (r.1, r.2.1, bulkOp :: r.2.2)

/-- The index model `CustSyncIndex` builds from one source index
document: each option is set only when the corresponding key exists in
the document, with the type assertion the code performs. -/
structure IndexCreate where
  nam : Option (List Char)
  unique : Option Bool
  sparse : Option Bool
  expireAfterSeconds : Option Int
  partialFilterExpression : Option BVal
  weights : Option BVal
  defaultLanguage : Option (List Char)
  languageOverride : Option (List Char)
  keys : Option BVal
deriving DecidableEq

/-- Read key `k` as a Go `string`: `some none` when absent, `some (some s)`
for a string value, `none` when the `.(string)` type assertion panics. -/
def getOptStr (d : Doc) (k : List Char) : Option (Option (List Char)) :=
  match docGet d k with
  | none => some none
  | some (BVal.str s) => some (some s)
  | some _ => none

/-- Read key `k` as a Go `bool` (`.(bool)` type assertion). -/
def getOptBool (d : Doc) (k : List Char) : Option (Option Bool) :=
  match docGet d k with
  | none => some none
  | some (BVal.boolean b) => some (some b)
  | some _ => none

/-- Read key `k` as a Go `int32` (`.(int32)` type assertion). -/
def getOptInt32 (d : Doc) (k : List Char) : Option (Option Int) :=
  match docGet d k with
  | none => some none
  | some (BVal.int32 n) => some (some n)
  | some _ => none

/-- The option-extraction block of `CustSyncIndex` for one enumerated
index document; `none` when one of the code's type assertions panics
(`CustSyncIndex` has no `recover`, so the process crashes). -/
def mkIndexCreate (d : Doc) : Option IndexCreate := do
  let nm ← getOptStr d ("name".toList)
  let un ← getOptBool d ("unique".toList)
  let sp ← getOptBool d ("sparse".toList)
  let ex ← getOptInt32 d ("expireAfterSeconds".toList)
  let pf := docGet d ("partialFilterExpression".toList)
  let wt := docGet d ("weights".toList)
  let dl ← getOptStr d ("default_language".toList)
  let lo ← getOptStr d ("language_override".toList)
  let ky := docGet d ("key".toList)
  pure ⟨nm, un, sp, ex, pf, wt, dl, lo, ky⟩

/-- Outcome of a `CustSyncIndex` run: the index creations issued before
the run ended normally (`done`), ended by `log.Fatalf` on a creation
error (`fatal`, carrying the creations issued up to and including the
failed one), or crashed on a type-assertion panic (`crash`). -/
inductive IndexSyncRes where
  | done : List IndexCreate → IndexSyncRes
  | fatal : List IndexCreate → IndexSyncRes
  | crash : List IndexCreate → IndexSyncRes
deriving DecidableEq

/-- Whether the run aborted the job (by `log.Fatalf` or a panic). -/
def IndexSyncRes.failed : IndexSyncRes → Bool
  | .done _ => false
  | _ => true

/-- The cursor loop of `CustSyncIndex` over the source's enumerated
index documents, in enumeration order: build the index model, call
`CreateOne` on the destination (`createRes` gives its error outcome),
and `log.Fatalf` on ANY creation error — the code has no special case
for the `_id` index or for "already exists" errors. -/
def syncIndexLoop (createRes : IndexCreate → Option (List Char)) :
    List Doc → IndexSyncRes
  | [] => IndexSyncRes.done []
  | d :: rest =>
    match mkIndexCreate d with
    | none => IndexSyncRes.crash []
    | some ic =>
      match createRes ic with
      | some _ => IndexSyncRes.fatal [ic]
      | none =>
        match syncIndexLoop createRes rest with
        | .done l => IndexSyncRes.done (ic :: l)
        | .fatal l => IndexSyncRes.fatal (ic :: l)
        | .crash l => IndexSyncRes.crash (ic :: l)

/-- `CustSyncIndex` from `utils.go`, over the source's index list. -/
def CustSyncIndex (idxs : List Doc) (createRes : IndexCreate → Option (List Char)) :
    IndexSyncRes :=
  syncIndexLoop createRes idxs

/-- A source oplog document as `CustSyncOplog` reads it (`bson.M` with a
`ts` timestamp the code extracts; the rest of the document is carried
verbatim). -/
structure MEntry where
  ts : TS
  body : Doc
deriving DecidableEq

/-- A destination insert issued by `CustSyncOplog`, with the namespace
it targets and the `SetBypassDocumentValidation` value the code sets. -/
structure SyncWrite where
  db : List Char
  coll : List Char
  doc : MEntry
  bypass : Bool
deriving DecidableEq

/-- Outcome of a `CustSyncOplog` run. -/
inductive SyncRes where
  | fatalProbe : SyncRes
  | fatalWatermark : SyncRes
  | fatalInsert : List SyncWrite → SyncRes
  | done : List SyncWrite → SyncRes
deriving DecidableEq

/-- The inserts a `CustSyncOplog` run issued. -/
def SyncRes.writes : SyncRes → List SyncWrite
  | .fatalInsert ws => ws
  | .done ws => ws
  | _ => []

/-- The cursor loop of `CustSyncOplog`: each delivered entry is written
to `syncoplog.oplog.rs` by a single `InsertOne` with
`SetBypassDocumentValidation(false)`; an insert error is
`log.Fatalln` (the failed insert was still issued).  `insertRes` gives
the destination's outcome per entry. -/
def syncOplogLoop (insertRes : MEntry → Option (List Char)) :
    List MEntry → List SyncWrite × Bool
  | [] => ([], false)
  | e :: rest =>
    let w : SyncWrite := ⟨"syncoplog".toList, "oplog.rs".toList, e, false⟩
    match insertRes e with
    | some _ => ([w], true)
    | none =>
      let r := syncOplogLoop insertRes rest
      (w :: r.1, r.2)

/-- `CustSyncOplog` from `utils.go`, over the source `local.oplog.rs`
modelled as its list of entries in natural order: validate the
watermark with `FindOne(ts >= startTS)` exactly as in `CustReplayOplog`
(after a 5 s settle delay, not modelled), then tail the cursor over
`ts >= startTS` and insert each entry.  The heartbeat read of the
primary's latest timestamp touches no destination state and is not
modelled. -/
def CustSyncOplog (log : List MEntry) (startTS : TS)
    (insertRes : MEntry → Option (List Char)) : SyncRes :=
  match List.find? (fun e => TS.ble startTS e.ts) log with
  | none => SyncRes.fatalProbe
  | some first =>
    if first.ts = startTS then
      let r := syncOplogLoop insertRes (log.filter (fun e => TS.ble startTS e.ts))
      if r.2 then SyncRes.fatalInsert r.1 else SyncRes.done r.1
    else SyncRes.fatalWatermark

/-- The SkipOnDuplicate classification of an `InsertOne` outcome, read
off the `insertManyErrHandler` branches: no error, or an error whose
string contains `E11000 duplicate key error`, counts the document as a
success; any other error counts it as a failure. -/
def isDupOrOk : Option (List Char) → Bool
  | none => true
  | some er => strContains er dupKeyPat

/-- A concrete oplog entry whose `ts` lies above the demo watermark. -/
def demoHighEntry : Oplog := ⟨⟨5, 0⟩, "n".toList, [], [], []⟩

/-- A concrete noop oplog entry (as produced by the periodic noop
writer). -/
def noopEntry : Oplog :=
  ⟨⟨1, 1⟩, "n".toList, [], [], [("msg".toList, BVal.str ("periodic noop".toList))]⟩

/-- The source's implicit primary-key index document, as `ListIndexes`
enumerates it. -/
def demoIdIdx : Doc :=
  [("v".toList, BVal.int32 2), ("key".toList, BVal.blob 0),
   ("name".toList, BVal.str ("_id_".toList))]

/-- The index model `CustSyncIndex` builds from `demoIdIdx`. -/
def demoIdIdxCreate : IndexCreate :=
  ⟨some ("_id_".toList), none, none, none, none, none, none, none, some (BVal.blob 0)⟩

/-- A destination "already exists" error for the `_id` index. -/
def demoIdxDupErr : List Char :=
  "Index with name: _id_ already exists with different options".toList

/-- A destination on which creating the `_id` index reports "already
exists" and every other creation succeeds. -/
def demoIdxDupOracle : IndexCreate → Option (List Char) :=
  fun ic => if ic.nam = some ("_id_".toList) then some demoIdxDupErr else none

/-- A concrete source oplog document for the staging writer. -/
def demoMEntry : MEntry := ⟨⟨3, 0⟩, [("op".toList, BVal.str ("n".toList))]⟩

/-- A destination whose staging inserts all succeed. -/
def demoNoInsertErr : MEntry → Option (List Char) := fun _ => none

/-- The staging insert `CustSyncOplog` issues for `demoMEntry`. -/
def demoSyncWrite : SyncWrite :=
  ⟨"syncoplog".toList, "oplog.rs".toList, demoMEntry, false⟩

/-- A concrete one-entry namespace mapping table. -/
def demoNsTable : NsTable := [("a.b".toList, "c.d".toList)]

/-- A concrete document for the batched-writer scenarios. -/
def dA : Doc := [("_id".toList, BVal.int32 7)]

/-- A destination whose single-document inserts all fail with the
driver's unique-key-violation error string. -/
def demoDupDocRes : Doc → Option (List Char) :=
  fun _ => some ("E11000 duplicate key error collection: d.c index: _id_ dup key".toList)

/-- A destination whose per-document operations all succeed. -/
def demoNoDocErr : Doc → Option (List Char) := fun _ => none

/-! ### Helper lemmas -/

theorem splitFirstDot_eq_none {s : List Char} : splitFirstDot s = none ↔ '.' ∉ s := by
  induction s with
  | nil => simp [splitFirstDot]
  | cons c rest ih =>
    by_cases hc : c = '.'
    · subst hc
      simp [splitFirstDot]
    · simp only [splitFirstDot, if_neg hc, List.mem_cons, not_or]
      cases hs : splitFirstDot rest with
      | none =>
        have hcs : ¬ '.' = c := fun h => hc h.symm
        simp [ih.mp hs, hcs]
      | some p =>
        rcases p with ⟨a, b⟩
        have hr : '.' ∈ rest := by
          by_contra hnot
          have hnone := ih.mpr hnot
          rw [hnone] at hs
          simp at hs
        simp [hr]

theorem splitFirstDot_append {a : List Char} (b : List Char) (ha : '.' ∉ a) :
    splitFirstDot (a ++ '.' :: b) = some (a, b) := by
  induction a with
  | nil => simp [splitFirstDot]
  | cons c rest ih =>
    have hc : c ≠ '.' := fun h => ha (h ▸ List.mem_cons_self c rest)
    have hrest : '.' ∉ rest := fun h => ha (List.mem_cons_of_mem c h)
    simp only [List.cons_append, splitFirstDot, if_neg hc, List.append_eq, ih hrest]

theorem TS.ble_of_blt {a b : TS} (h : TS.blt a b = true) : TS.ble a b = true := by
  simp only [TS.blt, decide_eq_true_eq] at h
  simp only [TS.ble, decide_eq_true_eq]
  omega

theorem TS.ne_of_blt {a b : TS} (h : TS.blt a b = true) : b.t ≠ a.t ∨ b.i ≠ a.i := by
  simp only [TS.blt, decide_eq_true_eq] at h
  omega

theorem TS.ne_ts_of_blt {a b : TS} (h : TS.blt a b = true) : b ≠ a := by
  intro heq
  subst heq
  simp only [TS.blt, decide_eq_true_eq] at h
  omega

theorem applyOplogEntry_empty_filter (e : Oplog) (m : NsTable) :
    applyOplogEntry e [] m = StepRes.ok [] := by
  simp [applyOplogEntry, CustContainsNs]

theorem replayLoop_empty_filter (m : NsTable) (l : List Oplog) :
    replayLoop [] m l = ([], false) := by
  induction l with
  | nil => rfl
  | cons e rest ih => simp [replayLoop, applyOplogEntry_empty_filter, ih]

theorem fallbackDoc_count (uo : Bool) (r i : Doc → Option (List Char)) (d : Doc) :
    (fallbackDoc uo r i d).1 + (fallbackDoc uo r i d).2.1 = 1 := by
  unfold fallbackDoc
  cases uo with
  | true =>
    cases r d <;> simp
  | false =>
    cases i d with
    | none => simp
    | some er =>
      by_cases hp : strContains er dupKeyPat <;> simp [hp]

theorem fallbackRun_counts (uo : Bool) (r i : Doc → Option (List Char)) (l : List Doc) :
    (fallbackRun uo r i l).1 + (fallbackRun uo r i l).2.1 = l.length := by
  induction l with
  | nil => rfl
  | cons d rest ih =>
    have h := fallbackDoc_count uo r i d
    simp only [fallbackRun, List.length_cons]
    omega

theorem fallbackRun_ops (uo : Bool) (r i : Doc → Option (List Char)) (l : List Doc) :
    (fallbackRun uo r i l).2.2 = l.map (fun d => (fallbackDoc uo r i d).2.2) := by
  induction l with
  | nil => rfl
  | cons d rest ih => simp [fallbackRun, ih]

theorem fallbackDoc_skip_op (r i : Doc → Option (List Char)) (d : Doc) :
    (fallbackDoc false r i d).2.2 = WriterOp.insertOne d true := by
  unfold fallbackDoc
  cases i d with
  | none => rfl
  | some er =>
    by_cases hp : strContains er dupKeyPat <;> simp [hp]

theorem fallbackDoc_skip_success (r i : Doc → Option (List Char)) (d : Doc) :
    (fallbackDoc false r i d).1 = (if isDupOrOk (i d) = true then 1 else 0) := by
  unfold fallbackDoc isDupOrOk
  cases i d with
  | none => rfl
  | some er =>
    by_cases hp : strContains er dupKeyPat <;> simp [hp]

theorem fallbackDoc_skip_fail (r i : Doc → Option (List Char)) (d : Doc) :
    (fallbackDoc false r i d).2.1 = (if isDupOrOk (i d) = true then 0 else 1) := by
  unfold fallbackDoc isDupOrOk
  cases i d with
  | none => rfl
  | some er =>
    by_cases hp : strContains er dupKeyPat <;> simp [hp]

theorem fallbackRun_skip_success (r i : Doc → Option (List Char)) (l : List Doc) :
    (fallbackRun false r i l).1 = (l.filter (fun d => isDupOrOk (i d))).length := by
  induction l with
  | nil => rfl
  | cons d rest ih =>
    simp only [fallbackRun, ih, fallbackDoc_skip_success]
    by_cases hd : isDupOrOk (i d) = true <;> simp [hd, List.filter, Nat.add_comm]

theorem fallbackRun_skip_fail (r i : Doc → Option (List Char)) (l : List Doc) :
    (fallbackRun false r i l).2.1 = (l.filter (fun d => !isDupOrOk (i d))).length := by
  induction l with
  | nil => rfl
  | cons d rest ih =>
    simp only [fallbackRun, ih, fallbackDoc_skip_fail]
    by_cases hd : isDupOrOk (i d) = true <;> simp [hd, List.filter, Nat.add_comm]

theorem syncOplogLoop_mem (insertRes : MEntry → Option (List Char)) (l : List MEntry)
    (w : SyncWrite) (h : w ∈ (syncOplogLoop insertRes l).1) :
    ∃ e ∈ l, w = ⟨"syncoplog".toList, "oplog.rs".toList, e, false⟩ := by
  induction l with
  | nil => simp [syncOplogLoop] at h
  | cons e rest ih =>
    unfold syncOplogLoop at h
    cases hres : insertRes e with
    | some er =>
      rw [hres] at h
      simp only [List.mem_singleton] at h
      exact ⟨e, List.mem_cons_self e rest, h⟩
    | none =>
      rw [hres] at h
      simp only [List.mem_cons] at h
      rcases h with h | h
      · exact ⟨e, List.mem_cons_self e rest, h⟩
      · obtain ⟨e', he', hw⟩ := ih h
        exact ⟨e', List.mem_cons_of_mem e he', hw⟩

/-! ### Claim theorems -/

/-- C1: the claim states that `CustContainsNs` admits an entry iff its
effective NS equals a filter entry or is a `db.$cmd` namespace whose
database prefixes a filter entry, and in particular that an ordinary
`db.coll` effective NS sharing a mere proper string prefix with a
filter entry is NOT admitted.  The code disagrees: `TrimSuffix` leaves
a non-`$cmd` namespace unchanged, so `HasPrefix(filterEntry, ns)`
admits any filter entry that extends the effective NS as a string.  At
`oplogns = "db.c"`, `nsSlice = ["db.coll"]` the code admits the entry
while the claim's predicate rejects it. -/
theorem C1_prefix_admission_bug :
    CustContainsNs ("db.c".toList) [("db.coll".toList)] = true ∧
    claimAdmitsNs ("db.c".toList) [("db.coll".toList)] = false := by decide

/-- C2: when every document of the source oplog collection has `ts`
strictly above `startTS` (so its minimum timestamp exceeds the
watermark) and the source namespace is well formed, `CustReplayOplog`
ends in the fatal watermark abort: the validation probe's first
document fails the `ts = startTS` check before the main cursor is
opened, and no per-op apply is performed (the result carries no
destination write). -/
theorem C2_watermark_gap_aborts (log : List Oplog) (startTS endTS : TS) (src : List Char)
    (nsSlice : List (List Char)) (m : NsTable)
    (hne : log ≠ [])
    (hmin : ∀ e ∈ log, TS.blt startTS e.ts = true)
    (hsrc : src = [] ∨ (splitFirstDot src).isSome = true) :
    CustReplayOplog log startTS endTS src nsSlice m = ReplayRes.fatalWatermark := by
  have hns0 : (splitFirstDot (if src = [] then "local.oplog.rs".toList else src)).isSome = true := by
    rcases hsrc with h | h
    · rw [if_pos h]; decide
    · have hnil : src ≠ [] := by
        intro hn
        rw [hn] at h
        simp [splitFirstDot] at h
      rw [if_neg hnil]
      exact h
  obtain ⟨p, hp⟩ := Option.isSome_iff_exists.mp hns0
  obtain ⟨e0, rest, rfl⟩ : ∃ e0 rest, log = e0 :: rest := by
    cases log with
    | nil => exact absurd rfl hne
    | cons a l => exact ⟨a, l, rfl⟩
  have hmem : e0 ∈ e0 :: rest := List.mem_cons_self e0 rest
  have hble : TS.ble startTS e0.ts = true := TS.ble_of_blt (hmin e0 hmem)
  have hne0 : e0.ts ≠ startTS := TS.ne_ts_of_blt (hmin e0 hmem)
  have hfind : List.find? (fun e => TS.ble startTS e.ts) (e0 :: rest) = some e0 :=
    List.find?_cons_of_pos rest hble
  simp only [CustReplayOplog, hp, hfind]
  rw [if_neg hne0]

/-- C2 witness: a one-entry source log at `ts = (5, 0)` probed with
`startTS = (3, 0)` aborts with the watermark fatal. -/
theorem C2_watermark_gap_aborts_witness :
    CustReplayOplog [demoHighEntry] ⟨3, 0⟩ ⟨0, 0⟩ [] [("d.c".toList)] [] =
      ReplayRes.fatalWatermark :=
  C2_watermark_gap_aborts [demoHighEntry] ⟨3, 0⟩ ⟨0, 0⟩ [] [("d.c".toList)] []
    (by decide) (by decide) (Or.inl rfl)

/-- C3 counterexample: the claim states an "already exists" creation
error on the `_id` index does not fail the job, but `CustSyncIndex`
treats every `CreateOne` error as `log.Fatalf`: on a source whose only
enumerated index is the `_id` index and a destination reporting
"already exists" for it, the job ends fatal. -/
theorem C3_id_index_error_is_fatal :
    (CustSyncIndex [demoIdIdx] demoIdxDupOracle).failed = true ∧
    CustSyncIndex [demoIdIdx] demoIdxDupOracle = IndexSyncRes.fatal [demoIdIdxCreate] ∧
    strContains demoIdxDupErr ("already exists".toList) = true := by decide

/-- C3 amended: every index-creation error on the destination — with no
carve-out for the `_id` index or for "already exists" errors — is fatal
for the job: when all enumerated index documents are well formed and
some enumerated index's creation errors, the run ends in `log.Fatalf`. -/
theorem C3_any_create_error_fatal (idxs : List Doc)
    (createRes : IndexCreate → Option (List Char))
    (hwf : ∀ d ∈ idxs, (mkIndexCreate d).isSome = true)
    (herr : ∃ d ∈ idxs, ∃ ic, mkIndexCreate d = some ic ∧ createRes ic ≠ none) :
    ∃ l, CustSyncIndex idxs createRes = IndexSyncRes.fatal l := by
  unfold CustSyncIndex
  revert hwf herr
  induction idxs with
  | nil =>
    intro hwf herr
    obtain ⟨d, hd, _⟩ := herr
    exact absurd hd (List.not_mem_nil d)
  | cons d rest ih =>
    intro hwf herr
    obtain ⟨ic, hic⟩ := Option.isSome_iff_exists.mp (hwf d (List.mem_cons_self d rest))
    cases hres : createRes ic with
    | some er =>
      refine ⟨[ic], ?_⟩
      simp only [syncIndexLoop, hic, hres]
    | none =>
      have hwf' : ∀ d' ∈ rest, (mkIndexCreate d').isSome = true :=
        fun d' hd' => hwf d' (List.mem_cons_of_mem d hd')
      have herr' : ∃ d' ∈ rest, ∃ ic', mkIndexCreate d' = some ic' ∧ createRes ic' ≠ none := by
        obtain ⟨d', hd', ic', hic', hne'⟩ := herr
        rcases List.mem_cons.mp hd' with heq | hmem
        · subst heq
          rw [hic] at hic'
          cases hic'
          exact absurd hres hne'
        · exact ⟨d', hmem, ic', hic', hne'⟩
      obtain ⟨l, hl⟩ := ih hwf' herr'
      refine ⟨ic :: l, ?_⟩
      simp only [syncIndexLoop, hic, hres, hl]

/-- C3 amended witness: the `_id`-index scenario discharges the
hypotheses of the amended theorem. -/
theorem C3_any_create_error_fatal_witness :
    (∀ d ∈ [demoIdIdx], (mkIndexCreate d).isSome = true) ∧
    (∃ l, CustSyncIndex [demoIdIdx] demoIdxDupOracle = IndexSyncRes.fatal l) :=
  ⟨by decide,
   C3_any_create_error_fatal [demoIdIdx] demoIdxDupOracle (by decide)
     ⟨demoIdIdx, by decide, demoIdIdxCreate, by decide, by decide⟩⟩

/-- C4 counterexample: the claim states the staging writes are issued
with the bypass-validation option SET, but `CustSyncOplog` calls
`SetBypassDocumentValidation(false)`: on a concrete one-entry log the
issued insert does not have `bypass = true`. -/
theorem C4_staging_insert_not_bypassed :
    ¬ (∀ w ∈ (CustSyncOplog [demoMEntry] ⟨3, 0⟩ demoNoInsertErr).writes,
        w.bypass = true) := by decide

/-- C4 amended: every entry read from the source oplog is written to the
destination collection `syncoplog.oplog.rs` as a single-document insert
with server-side document validation ENABLED (the bypass-validation
option set to `false`), the document being a source entry verbatim. -/
theorem C4_staging_insert_shape (log : List MEntry) (startTS : TS)
    (insertRes : MEntry → Option (List Char)) (w : SyncWrite)
    (h : w ∈ (CustSyncOplog log startTS insertRes).writes) :
    w.db = "syncoplog".toList ∧ w.coll = "oplog.rs".toList ∧
      w.bypass = false ∧ w.doc ∈ log := by
  unfold CustSyncOplog at h
  split at h
  · simp [SyncRes.writes] at h
  · split at h
    · change w ∈ (if (syncOplogLoop insertRes
            (List.filter (fun e => TS.ble startTS e.ts) log)).2 = true
          then SyncRes.fatalInsert (syncOplogLoop insertRes
            (List.filter (fun e => TS.ble startTS e.ts) log)).1
          else SyncRes.done (syncOplogLoop insertRes
            (List.filter (fun e => TS.ble startTS e.ts) log)).1).writes at h
      rw [apply_ite SyncRes.writes] at h
      simp only [SyncRes.writes, ite_self] at h
      obtain ⟨e, he, hw⟩ := syncOplogLoop_mem insertRes _ w h
      subst hw
      exact ⟨rfl, rfl, rfl, (List.mem_filter.mp he).1⟩
    · simp [SyncRes.writes] at h

/-- C4 amended witness: the insert issued for `demoMEntry` has the
stated shape. -/
theorem C4_staging_insert_shape_witness :
    demoSyncWrite ∈ (CustSyncOplog [demoMEntry] ⟨3, 0⟩ demoNoInsertErr).writes ∧
    (demoSyncWrite.db = "syncoplog".toList ∧ demoSyncWrite.coll = "oplog.rs".toList ∧
      demoSyncWrite.bypass = false ∧ demoSyncWrite.doc ∈ [demoMEntry]) :=
  ⟨by decide,
   C4_staging_insert_shape [demoMEntry] ⟨3, 0⟩ demoNoInsertErr demoSyncWrite (by decide)⟩

/-- C5 counterexample: the claim states `CustFilter` fails only when
the input contains no `.`; but on the input `"a.b"` (which contains a
`.`) with a table mapping it to the dot-free value `"nodot"`, the
`SplitN(table[ns], ".", 2)[1]` access panics — the operation fails. -/
theorem C5_fails_on_dotfree_mapped_value :
    ("a.b".toList).contains '.' = true ∧
    CustFilter ("a.b".toList) [(("a.b".toList), ("nodot".toList))] = none := by decide

/-- C5 amended: `CustFilter` splits `ns` at its first `.` into the
source pair; a present table entry is split at its first `.` for the
destination pair, otherwise the destination equals the source; and the
operation fails exactly when `ns` contains no `.` or the table maps
`ns` to a value containing no `.`. -/
theorem C5_mapper_characterisation (ns : List Char) (m : NsTable) :
    (CustFilter ns m = none ↔
      ('.' ∉ ns ∨ ∃ v, lookupNs m ns = some v ∧ '.' ∉ v)) ∧
    (∀ a b, ns = a ++ '.' :: b → '.' ∉ a →
      (lookupNs m ns = none → CustFilter ns m = some ⟨a, b, a, b⟩) ∧
      (∀ v c d, lookupNs m ns = some v → v = c ++ '.' :: d → '.' ∉ c →
        CustFilter ns m = some ⟨a, b, c, d⟩)) := by
  constructor
  · unfold CustFilter
    cases hl : lookupNs m ns with
    | none =>
      cases hs : splitFirstDot ns with
      | none =>
        have hd := splitFirstDot_eq_none.mp hs
        simp [hd]
      | some p =>
        rcases p with ⟨a, b⟩
        have hd : '.' ∈ ns := by
          by_contra hnot
          rw [splitFirstDot_eq_none.mpr hnot] at hs
          cases hs
        simp [hd]
    | some v =>
      cases hs : splitFirstDot ns with
      | none =>
        have hd := splitFirstDot_eq_none.mp hs
        simp [hd]
      | some p =>
        rcases p with ⟨a, b⟩
        have hd : '.' ∈ ns := by
          by_contra hnot
          rw [splitFirstDot_eq_none.mpr hnot] at hs
          cases hs
        cases hv : splitFirstDot v with
        | none =>
          have hdv := splitFirstDot_eq_none.mp hv
          simp [hv, hd, hdv]
        | some q =>
          rcases q with ⟨c, d⟩
          have hdv : '.' ∈ v := by
            by_contra hnot
            rw [splitFirstDot_eq_none.mpr hnot] at hv
            cases hv
          simp [hv, hd, hdv]
  · intro a b hns ha
    have hs : splitFirstDot ns = some (a, b) := by
      rw [hns]
      exact splitFirstDot_append b ha
    constructor
    · intro hl
      unfold CustFilter
      simp only [hl, hs]
    · intro v c d hl hv hc
      have hsv : splitFirstDot v = some (c, d) := by
        rw [hv]
        exact splitFirstDot_append d hc
      unfold CustFilter
      simp only [hl, hs, hsv]

/-- C5 amended witness: `"a.b"` mapped through `{"a.b" ↦ "c.d"}` splits
both sides at their first dot. -/
theorem C5_mapper_characterisation_witness :
    CustFilter ("a.b".toList) demoNsTable =
      some ⟨"a".toList, "b".toList, "c".toList, "d".toList⟩ :=
  ((C5_mapper_characterisation ("a.b".toList) demoNsTable).2 ("a".toList) ("b".toList)
      (by decide) (by decide)).2
    ("c.d".toList) ("c".toList) ("d".toList) (by decide) (by decide) (by decide)

/-- C6: on a failed batch under SkipOnDuplicate (`updateOverwrite =
false`), the fallback issues exactly one `InsertOne` per document of
the batch (after the ordered bulk attempt, and with no retry); the
success counter counts exactly the documents whose insert either
succeeded or failed with an error string containing
`E11000 duplicate key error`, and the failure counter counts exactly
the documents with any other insert error. -/
theorem C6_skip_on_duplicate (docs : List Doc) (er : List Char)
    (rRes iRes : Doc → Option (List Char)) :
    (CustInsertMany docs false (some er) rRes iRes).2.2 =
      WriterOp.insertMany docs true false ::
        docs.map (fun d => WriterOp.insertOne d true) ∧
    (CustInsertMany docs false (some er) rRes iRes).1 =
      (docs.filter (fun d => isDupOrOk (iRes d))).length ∧
    (CustInsertMany docs false (some er) rRes iRes).2.1 =
      (docs.filter (fun d => !isDupOrOk (iRes d))).length := by
  refine ⟨?_, ?_, ?_⟩
  · simp only [CustInsertMany, fallbackRun_ops, fallbackDoc_skip_op]
  · simp only [CustInsertMany, fallbackRun_skip_success]
  · simp only [CustInsertMany, fallbackRun_skip_fail]

/-- C7: an oplog entry with `op = "n"` never issues a destination
write: whether or not its (empty-namespace-derived) effective NS passes
the filter, and whether or not the mapper panics, the dispatch switch
reaches the no-op `"n"` arm — or nothing at all — and the recorded
write list is empty. -/
theorem C7_noop_entry_no_write (e : Oplog) (nsSlice : List (List Char)) (m : NsTable)
    (h : e.op = "n".toList) :
    (applyOplogEntry e nsSlice m).writes = [] := by
  unfold applyOplogEntry
  rw [h]
  by_cases hc : CustContainsNs (effectiveNs e) nsSlice
  · rw [if_pos hc]
    cases CustFilter (effectiveNs e) m <;> rfl
  · rw [if_neg hc]
    rfl

/-- C7 witness: a concrete periodic-noop entry produces no write under
a nonempty filter and an empty map. -/
theorem C7_noop_entry_no_write_witness :
    noopEntry.op = "n".toList ∧
    (applyOplogEntry noopEntry [("d.c".toList)] []).writes = [] :=
  ⟨rfl, C7_noop_entry_no_write noopEntry [("d.c".toList)] [] rfl⟩

/-- C8: with an empty `nsSlice`, `CustContainsNs` admits no namespace
(the commented-out early `return true` shows the admit-everything
behaviour was deliberately disabled), so `CustReplayOplog` run with an
empty filter issues no destination write at all. -/
theorem C8_empty_filter_no_replay (oplogns : List Char) (log : List Oplog)
    (startTS endTS : TS) (src : List Char) (m : NsTable) :
    CustContainsNs oplogns [] = false ∧
    (CustReplayOplog log startTS endTS src [] m).writes = [] := by
  refine ⟨rfl, ?_⟩
  unfold CustReplayOplog
  simp only [replayLoop_empty_filter, Bool.false_eq_true, if_false]
  repeat' split
  all_goals simp [ReplayRes.writes]

/-- C9: the counters of `CustInsertMany` always sum to the batch size:
the bulk-success path returns `(n, 0)`, and on the fallback path each
document increments exactly one of the two counters exactly once. -/
theorem C9_counters_sum (docs : List Doc) (uo : Bool) (bulkRes : Option (List Char))
    (rRes iRes : Doc → Option (List Char)) :
    (CustInsertMany docs uo bulkRes rRes iRes).1 +
      (CustInsertMany docs uo bulkRes rRes iRes).2.1 = docs.length := by
  cases bulkRes with
  | none => simp [CustInsertMany]
  | some er =>
    simp only [CustInsertMany]
    exact fallbackRun_counts uo rRes iRes docs

/-- C10: the ordered bulk insert of `CustInsertMany` is issued with
document validation enabled (`bypass = false`), while under
SkipOnDuplicate every per-document fallback `InsertOne` is issued with
validation bypassed (`bypass = true`). -/
theorem C10_bulk_validates_fallback_bypasses (docs : List Doc)
    (bulkRes : Option (List Char)) (rRes iRes : Doc → Option (List Char)) :
    (CustInsertMany docs false bulkRes rRes iRes).2.2.head? =
      some (WriterOp.insertMany docs true false) ∧
    (∀ d b, WriterOp.insertOne d b ∈ (CustInsertMany docs false bulkRes rRes iRes).2.2 →
      b = true) := by
  cases bulkRes with
  | none =>
    refine ⟨rfl, ?_⟩
    intro d b hmem
    simp [CustInsertMany] at hmem
  | some er =>
    refine ⟨rfl, ?_⟩
    intro d b hmem
    simp only [CustInsertMany, fallbackRun_ops, fallbackDoc_skip_op] at hmem
    rcases List.mem_cons.mp hmem with heq | hmem'
    · exact WriterOp.noConfusion heq
    · obtain ⟨d', hd', heq⟩ := List.mem_map.mp hmem'
      injection heq with h1 h2
      exact h2.symm

/-- C10 witness: a one-document failed batch under SkipOnDuplicate
issues a bypassed `InsertOne`. -/
theorem C10_bulk_validates_fallback_bypasses_witness :
    (CustInsertMany [dA] false (some ("write exception".toList))
        demoNoDocErr demoDupDocRes).2.2.head? =
      some (WriterOp.insertMany [dA] true false) ∧ true = true :=
  ⟨(C10_bulk_validates_fallback_bypasses [dA] (some ("write exception".toList))
      demoNoDocErr demoDupDocRes).1,
   (C10_bulk_validates_fallback_bypasses [dA] (some ("write exception".toList))
      demoNoDocErr demoDupDocRes).2 dA true (by decide)⟩

end Mongosync
